import Mathlib

/-!
Verification development for `build_rss.py`, a single-file RSS aggregation
pipeline (fetch → normalize → filter → dedupe/sort/truncate → enrich → render).

Shallow embedding conventions:
* Python strings are modelled as `List Char` (`Str`).
* Timestamps (`datetime`) are modelled as `Int` seconds; `timedelta(days=d)`
  is `d * 86400`.
* External library calls (feedparser, requests, BeautifulSoup,
  `email.utils.parsedate_to_datetime`, `email.utils.format_datetime`) are
  modelled as explicit parameters or as pre-extracted record fields: a feed is
  a list of already-parsed entries, a CSV is a list of rows, an article page is
  a record of the pieces the code extracts from the soup, date parsing is a
  function `Str → Option Int` (`none` = `parsedate_to_datetime` raised), and a
  page fetch is `Str → Except Unit Page` (`Except.error` = requests raised).
* Python `sorted(key=..., reverse=True)` is a stable descending sort; it is
  embedded as a stable insertion sort, which produces the identical list.
-/

namespace BuildRss

/-- Python strings, modelled as lists of characters. -/
abbrev Str := List Char

/-- One-sided Python strip: drop leading characters satisfying `p`, then
trailing ones.  Models `str.strip()` / `str.strip("-")`. -/
def pyStrip (p : Char → Bool) (s : Str) : Str :=
  ((s.dropWhile p).reverse.dropWhile p).reverse

/-- Models Python `str.strip()` (whitespace strip). -/
def stripWs (s : Str) : Str :=
  pyStrip Char.isWhitespace s

/-- Models Python `str.lower()`. -/
def pyLower (s : Str) : Str :=
  s.map Char.toLower

/-- `isPrefB n h` is true when `n` is a prefix of `h`. -/
def isPrefB : Str → Str → Bool
  | [], _ => true
  | _ :: _, [] => false
  | c :: cs, d :: ds => c == d && isPrefB cs ds

/-- Models Python substring membership `needle in hay`. -/
def subStr (needle : Str) : Str → Bool
  | [] => isPrefB needle []
  | d :: ds => isPrefB needle (d :: ds) || subStr needle ds

/-- The loaded settings (`SETTINGS` globals of `build_rss.py`).  `keywords`
and `excludeKeywords` hold the already-lowercased configured lists, exactly as
`KEYWORDS = [k.lower() ...]` and `EXCLUDE = [k.lower() ...]` store them;
`siteBase` and `articlePageBase` are already `rstrip("/")`-ed. -/
structure Config where
  title : Str
  link : Str
  description : Str
  keywords : List Str
  excludeKeywords : List Str
  maxItems : Nat
  daysLookback : Int
  siteBase : Str
  articlePageBase : Str
  csvUrl : Str
deriving DecidableEq

/-- `matches(text)` from `build_rss.py`: lowercase the text; reject when the
keyword list is non-empty and no keyword occurs; reject when the exclude list
is non-empty and some exclude keyword occurs; otherwise accept. -/
def matchesB (kws excl : List Str) (text : Str) : Bool :=
  if kws ≠ [] && !(kws.any fun k => subStr k (pyLower text)) then false
  else if excl ≠ [] && (excl.any fun x => subStr x (pyLower text)) then false
  else true

/-- Character class of the regex `[a-z0-9]` (complement of `_SLUG_RE`). -/
def isSlugChar (c : Char) : Bool :=
  (97 ≤ c.toNat && c.toNat ≤ 122) || (48 ≤ c.toNat && c.toNat ≤ 57)

/-- Worker for `_SLUG_RE.sub("-", s)`: replaces every maximal run of
non-`[a-z0-9]` characters by a single hyphen.  The flag records whether we are
currently inside such a run (whose hyphen has already been emitted). -/
def collapseGo : Bool → Str → Str
  | _, [] => []
  | b, c :: rest =>
    if isSlugChar c then c :: collapseGo false rest
    else if b then collapseGo true rest
    else '-' :: collapseGo true rest

/-- Models `_SLUG_RE.sub("-", s)` where `_SLUG_RE = re.compile(r"[^a-z0-9]+")`. -/
def collapseRuns (s : Str) : Str :=
  collapseGo false s

/-- `slugify(s)` from `build_rss.py`:
`s.strip().lower()`, collapse non-alphanumeric runs to `-`, `strip("-")`,
truncate to 80 characters, fall back to `"post"` when empty. -/
def slugify (s : Str) : Str :=
  if (pyStrip (fun c => c == '-') (collapseRuns (pyLower (stripWs s)))).take 80 = []
  then "post".toList
  else (pyStrip (fun c => c == '-') (collapseRuns (pyLower (stripWs s)))).take 80

/-- The pipeline's item dictionary.  Fields added later in the run
(`slug`, `summary_url`, `thumb`) are optional with default `none`. -/
structure Item where
  title : Str
  link : Str
  guid : Str
  pubDate : Int
  desc : Str
  image : Option Str
  slug : Option Str := none
  summaryUrl : Option Str := none
  thumb : Option Str := none
deriving DecidableEq

/-- Dedupe key `it.get("guid") or it.get("link")` (empty string is falsy). -/
def dedupeKey (it : Item) : Str :=
  if it.guid = [] then it.link else it.guid

/-- Insert into a descending-sorted list, placing the new element before the
first element with a smaller-or-equal timestamp (stable insertion). -/
def insertDesc (x : Item) : List Item → List Item
  | [] => [x]
  | y :: ys => if y.pubDate ≤ x.pubDate then x :: y :: ys else y :: insertDesc x ys

/-- Models `sorted(items, key=lambda x: x["pubDate"], reverse=True)`: the
stable descending sort by publish timestamp. -/
def sortDesc : List Item → List Item
  | [] => []
  | x :: xs => insertDesc x (sortDesc xs)

/-- The dedupe walk of `dedupe_and_sort`: keep the first occurrence of each
dedupe key, drop repeats (`seen` is the set of keys already kept). -/
def dedupePass (seen : List Str) : List Item → List Item
  | [] => []
  | it :: rest =>
    let key := dedupeKey it
    if key ∈ seen then dedupePass seen rest
    else it :: dedupePass (key :: seen) rest

/-- `dedupe_and_sort(items)` from `build_rss.py` (with `MAX_ITEMS` explicit):
sort by timestamp descending, drop repeated dedupe keys, truncate. -/
def dedupe_and_sort (maxItems : Nat) (items : List Item) : List Item :=
  (dedupePass [] (sortDesc items)).take maxItems

/-- A feedparser entry as `fetch_rss` consumes it.  String fields are the raw
attribute values (`""` when absent); `image` is the result of
`pick_entry_image(e)`, an extraction from external-library data modelled as a
pre-computed field. -/
structure Entry where
  title : Str
  link : Str
  summary : Str
  description : Str
  id : Str
  published : Str
  updated : Str
  image : Option Str
deriving DecidableEq

/-- `norm_pubdate(dt_str)`: parse the date string; on failure substitute the
current instant.  `pd` models `parsedate_to_datetime` (with its timezone
defaulting), `none` meaning the parse raised. -/
def norm_pubdate (pd : Str → Option Int) (now : Int) (s : Str) : Int :=
  match pd s with
  | some t => t
  | none => now

/-- Local `desc` of the `fetch_rss` loop:
`e.summary.strip() or e.description.strip()`. -/
def entryDesc (e : Entry) : Str :=
  if stripWs e.summary ≠ [] then stripWs e.summary else stripWs e.description

/-- Local `guid` of the `fetch_rss` loop: `e.id or link`. -/
def entryGuid (e : Entry) : Str :=
  if e.id ≠ [] then e.id else stripWs e.link

/-- Local `pub` of the `fetch_rss` loop: `e.published or e.updated`. -/
def entryPub (e : Entry) : Str :=
  if e.published ≠ [] then e.published else e.updated

/-- Local `dt` of the `fetch_rss` loop: `norm_pubdate(pub) if pub else now`. -/
def entryDate (pd : Str → Option Int) (now : Int) (e : Entry) : Int :=
  if entryPub e ≠ [] then norm_pubdate pd now (entryPub e) else now

/-- The per-entry body of the `fetch_rss` loop: normalization, recency cutoff
and keyword filter; `none` when the entry is dropped. -/
def entryItem (cfg : Config) (pd : Str → Option Int) (now cutoff : Int)
    (e : Entry) : Option Item :=
  if entryDate pd now e < cutoff then none
  else if matchesB cfg.keywords cfg.excludeKeywords
      (stripWs e.title ++ '\n' :: entryDesc e) = false then none
  else some (Item.mk (stripWs e.title) (stripWs e.link) (entryGuid e)
    (entryDate pd now e) (entryDesc e) e.image none none none)

/-- `fetch_rss()` from `build_rss.py`.  `feeds` is the list of parsed feeds
(one entry list per configured source URL, fetching and feed parsing being
external); the cutoff is `now - timedelta(days=DAYS_LOOKBACK)`. -/
def fetch_rss (cfg : Config) (pd : Str → Option Int) (now : Int)
    (feeds : List (List Entry)) : List Item :=
  let cutoff := now - cfg.daysLookback * 86400
  dedupe_and_sort cfg.maxItems
    ((feeds.map fun entries => entries.filterMap (entryItem cfg pd now cutoff)).flatten)

/-- One CSV row as `fetch_google_sheet` reads it (`""` for a missing column). -/
structure Row where
  title : Str
  url : Str
  summary : Str
  pubDate : Str
  guid : Str
deriving DecidableEq

/-- Local `guid` of the `fetch_google_sheet` loop: `row guid or link`. -/
def rowGuid (row : Row) : Str :=
  if stripWs row.guid ≠ [] then stripWs row.guid else stripWs row.url

/-- Local `dt` of the `fetch_google_sheet` loop. -/
def rowDate (pd : Str → Option Int) (now : Int) (row : Row) : Int :=
  if stripWs row.pubDate ≠ [] then norm_pubdate pd now (stripWs row.pubDate) else now

/-- The per-row body of the `fetch_google_sheet` loop: rows with an empty
title or url are dropped; no recency cutoff is applied. -/
def rowItem (cfg : Config) (pd : Str → Option Int) (now : Int)
    (row : Row) : Option Item :=
  if stripWs row.title = [] ∨ stripWs row.url = [] then none
  else if matchesB cfg.keywords cfg.excludeKeywords
      (stripWs row.title ++ '\n' :: stripWs row.summary) = false then none
  else some (Item.mk (stripWs row.title) (stripWs row.url) (rowGuid row)
    (rowDate pd now row) (stripWs row.summary) none none none none)

/-- `fetch_google_sheet()` from `build_rss.py`.  `rows` is the parsed CSV
(the HTTP fetch and `csv.DictReader` being external). -/
def fetch_google_sheet (cfg : Config) (pd : Str → Option Int) (now : Int)
    (rows : List Row) : List Item :=
  if cfg.csvUrl = [] then []
  else dedupe_and_sort cfg.maxItems (rows.filterMap (rowItem cfg pd now))

/-- The pieces of a fetched article page that `enrich_summary` extracts from
the soup: the `og:description` / `name="description"` meta contents (raw
attribute values, `none` when the tag or attribute is absent) and the
`get_text` results of the paragraphs of the chosen container, in order. -/
structure Page where
  ogDescription : Option Str
  metaDescription : Option Str
  paragraphTexts : List Str
deriving DecidableEq

/-- The meta-description fallback chain of `enrich_summary`: og:description
content (stripped) when present and non-empty, else the generic description
meta content (stripped), else empty. -/
def metaBest (page : Page) : Str :=
  let best := match page.ogDescription with
    | some c => if c ≠ [] then stripWs c else []
    | none => []
  if best = [] then
    match page.metaDescription with
    | some c => if c ≠ [] then stripWs c else []
    | none => []
  else best

/-- The paragraph loop of `enrich_summary`: keep texts longer than 60
characters, stop once the accumulated length exceeds 900. -/
def collectParas : List Str → List Str → List Str
  | [], acc => acc
  | txt :: rest, acc =>
    let acc2 := if txt.length > 60 then acc ++ [txt] else acc
    if (acc2.map List.length).sum > 900 then acc2 else collectParas rest acc2

/-- Python `max([a, b, c], key=len)`: the first element of maximal length. -/
def pyMax3ByLen (a b c : Str) : Str :=
  let m := a
  let m := if b.length > m.length then b else m
  if c.length > m.length then c else m

/-- The successful-fetch body of `enrich_summary`: meta-description chain,
paragraph concatenation, longest-candidate choice, 1200-character truncation
with an ellipsis, and the final `return cand or desc`. -/
def enrichBody (desc : Str) (page : Page) : Str :=
  let best := metaBest page
  let paras := collectParas (page.paragraphTexts.take 6) []
  let joined := List.intercalate [' '] paras
  let cand := pyMax3ByLen desc best joined
  let cand2 := if cand.length > 1200 then cand.take 1200 ++ ['…'] else cand
  if cand2 = [] then desc else cand2

/-- `enrich_summary(original_url, desc)` from `build_rss.py`.  `fetch` models
the `requests.get` + soup construction, `Except.error` meaning the fetch (or
any later parse step, all inside the same `try`) raised. -/
def enrich_summary (fetch : Str → Except Unit Page) (url : Str) (desc0 : Str) : Str :=
  if 500 ≤ (stripWs desc0).length then stripWs desc0
  else
    match fetch url with
    | Except.error _ => stripWs desc0
    | Except.ok page => enrichBody (stripWs desc0) page

/-- `slugify(it["title"] or it["guid"])` as used by `write_summary_pages`
and the thumbnail step. -/
def computeSlug (it : Item) : Str :=
  slugify (if it.title ≠ [] then it.title else it.guid)

/-- The `summary_url` assignment of `write_summary_pages`: the external
article-host URL when `ARTICLE_PAGE_BASE` is configured, else the local
summary page under `SITE_BASE`, else the raw link. -/
def summaryUrlOf (cfg : Config) (it : Item) : Str :=
  if cfg.articlePageBase ≠ [] then
    cfg.articlePageBase ++ "#slug=".toList ++ computeSlug it
  else if cfg.siteBase ≠ [] then
    cfg.siteBase ++ "/posts/".toList ++ computeSlug it ++ ".html".toList
  else it.link

/-- The per-item field updates performed by `write_summary_pages` (the HTML
and JSON file writes are I/O and carry no further pipeline state). -/
def setSummaryUrl (cfg : Config) (it : Item) : Item :=
  { it with slug := some (computeSlug it), summaryUrl := some (summaryUrlOf cfg it) }

/-- `write_summary_pages(items)` as a transformation of the item list. -/
def write_summary_pages (cfg : Config) (items : List Item) : List Item :=
  items.map (setSummaryUrl cfg)

/-- `it.get("summary_url") or it["link"]` in `build_rss`. -/
def linkForRss (it : Item) : Str :=
  match it.summaryUrl with
  | some u => if u = [] then it.link else u
  | none => it.link

/-- Python truthiness of an optional string field lookup. -/
def truthyOpt : Option Str → Bool
  | some s => s ≠ []
  | none => false

/-- `xml.sax.saxutils.escape`: replace `&`, `<`, `>` by their entities. -/
def xmlEscape (s : Str) : Str :=
  s.flatMap fun c =>
    if c = '&' then "&amp;".toList
    else if c = '<' then "&lt;".toList
    else if c = '>' then "&gt;".toList
    else [c]

/-- The `<description>` body built by `build_rss`: the enriched description
plus an explicit link back to the raw source URL. -/
def descWithLink (it : Item) : Str :=
  it.desc ++ "<br/><br/>\n<a href=\"".toList ++ xmlEscape it.link
    ++ "\" rel=\"noopener nofollow\">Read original →</a>".toList

/-- The lines `build_rss` appends for one item, in order.  `fmtDate` models
`to_rfc822` (`email.utils.format_datetime`, an external formatter). -/
def itemLines (fmtDate : Int → Str) (it : Item) : List Str :=
  let lk := linkForRss it
  ["    <item>".toList,
   "      <title>".toList ++ xmlEscape it.title ++ "</title>".toList,
   "      <link>".toList ++ xmlEscape lk ++ "</link>".toList,
   "      <guid isPermaLink=\"true\">".toList ++ xmlEscape lk ++ "</guid>".toList,
   "      <pubDate>".toList ++ fmtDate it.pubDate ++ "</pubDate>".toList]
  ++ (if truthyOpt it.thumb then
        match it.thumb with
        | some th =>
          ["      <media:thumbnail url=\"".toList ++ xmlEscape th ++ "\" />".toList,
           "      <enclosure url=\"".toList ++ xmlEscape th ++ "\" type=\"image/jpeg\" />".toList]
        | none => []
      else if truthyOpt it.image then
        match it.image with
        | some im =>
          ["      <enclosure url=\"".toList ++ xmlEscape im ++ "\" type=\"image/jpeg\" />".toList]
        | none => []
      else [])
  ++ ["      <description><![CDATA[".toList ++ descWithLink it ++ "]]></description>".toList,
      "    </item>".toList]

/-- `build_rss(items)` as the list of output lines. -/
def build_rss (cfg : Config) (fmtDate : Int → Str) (nowRfc : Str)
    (items : List Item) : List Str :=
  (["<?xml version=\"1.0\" encoding=\"UTF-8\"?>".toList,
    "<rss version=\"2.0\" xmlns:media=\"http://search.yahoo.com/mrss/\">".toList,
    "  <channel>".toList,
    "    <title>".toList ++ xmlEscape cfg.title ++ "</title>".toList,
    "    <link>".toList ++ xmlEscape cfg.link ++ "</link>".toList,
    "    <description>".toList ++ xmlEscape cfg.description ++ "</description>".toList,
    "    <lastBuildDate>".toList ++ nowRfc ++ "</lastBuildDate>".toList]
   ++ (items.map (itemLines fmtDate)).flatten
   ++ ["  </channel>".toList, "</rss>".toList])

/-! Concrete data used by the witnesses and counterexamples below. -/

/-- A configuration with empty keyword lists and the default limits
(`max_items = 30`, `days_lookback = 14`), feed-aggregation mode. -/
def cfgC1w : Config :=
  { title := [], link := [], description := [], keywords := [],
    excludeKeywords := [], maxItems := 30, daysLookback := 14,
    siteBase := [], articlePageBase := [], csvUrl := [] }

/-- A date parser that fails on every input. -/
def pdC1w : Str → Option Int := fun _ => none

/-- An entry whose `published` string does not parse. -/
def entryC1w : Entry :=
  { title := "t".toList, link := [], summary := [], description := [],
    id := [], published := "x".toList, updated := [], image := none }

/-- The item `fetch_rss` builds from `entryC1w` at `now = 1728000`. -/
def itemC1w : Item :=
  { title := "t".toList, link := [], guid := [], pubDate := 1728000,
    desc := [], image := none }

/-- A spreadsheet-mode configuration with default limits. -/
def cfgC1c : Config :=
  { title := [], link := [], description := [], keywords := [],
    excludeKeywords := [], maxItems := 30, daysLookback := 14,
    siteBase := [], articlePageBase := [], csvUrl := "u".toList }

/-- A date parser mapping the string `"old"` to the instant `0`. -/
def pdC1c : Str → Option Int := fun s => if s = "old".toList then some 0 else none

/-- A CSV row whose `pubDate` parses to the very old instant `0`. -/
def rowC1c : Row :=
  { title := "a".toList, url := "b".toList, summary := [],
    pubDate := "old".toList, guid := [] }

/-- An item with an empty guid and link `"a"`. -/
def itC2a : Item :=
  { title := [], link := "a".toList, guid := [], pubDate := 0, desc := [], image := none }

/-- An item with an empty guid and link `"b"`. -/
def itC2b : Item :=
  { title := [], link := "b".toList, guid := [], pubDate := 0, desc := [], image := none }

/-- The 82-character string `"a-a-…a-"` whose slug ends in a hyphen. -/
def sC5 : Str := (List.replicate 41 ['a', '-']).flatten

/-- A 500-character description. -/
def descC6 : Str := List.replicate 500 'a'

/-- A page fetch that always raises. -/
def fetchErrC6 : Str → Except Unit Page := fun _ => Except.error ()

/-- A page fetch returning a page with a long og:description. -/
def fetchOkC6 : Str → Except Unit Page := fun _ =>
  Except.ok { ogDescription := some (List.replicate 600 'x'),
              metaDescription := none, paragraphTexts := [] }

/-- An entry whose summary carries surrounding whitespace. -/
def entryC6 : Entry :=
  { title := "t".toList, link := [], summary := "  ab  ".toList, description := [],
    id := [], published := [], updated := [], image := none }

/-- The item `fetch_rss` builds from `entryC6` at `now = 0`. -/
def itemC6 : Item :=
  { title := "t".toList, link := [], guid := [], pubDate := 0,
    desc := "ab".toList, image := none }

/-- A page fetch that always raises. -/
def fetchErrC7 : Str → Except Unit Page := fun _ => Except.error ()

/-- A CSV row with a whitespace-padded summary. -/
def rowC7 : Row :=
  { title := "t".toList, url := "u".toList, summary := " hi ".toList,
    pubDate := [], guid := [] }

/-- The item `fetch_google_sheet` builds from `rowC7` at `now = 0`. -/
def itemC7 : Item :=
  { title := "t".toList, link := "u".toList, guid := "u".toList, pubDate := 0,
    desc := "hi".toList, image := none }

/-- A feed-mode configuration with empty keyword lists and default limits. -/
def cfgC6 : Config :=
  { title := [], link := [], description := [], keywords := [],
    excludeKeywords := [], maxItems := 30, daysLookback := 14,
    siteBase := [], articlePageBase := [], csvUrl := [] }

/-- A date parser that fails on every input. -/
def pdC6 : Str → Option Int := fun _ => none

/-- A feed-mode configuration with empty keyword lists and default limits. -/
def cfgC7 : Config :=
  { title := [], link := [], description := [], keywords := [],
    excludeKeywords := [], maxItems := 30, daysLookback := 14,
    siteBase := [], articlePageBase := [], csvUrl := [] }

/-- A spreadsheet-mode configuration with empty keyword lists. -/
def cfgC7s : Config :=
  { title := [], link := [], description := [], keywords := [],
    excludeKeywords := [], maxItems := 30, daysLookback := 14,
    siteBase := [], articlePageBase := [], csvUrl := "u".toList }

/-- A date parser that fails on every input. -/
def pdC7 : Str → Option Int := fun _ => none

/-- An entry whose summary carries surrounding whitespace. -/
def entryC7 : Entry :=
  { title := "t".toList, link := [], summary := " hi ".toList, description := [],
    id := [], published := [], updated := [], image := none }

/-- The item `fetch_rss` builds from `entryC7` at `now = 0`. -/
def itemC7r : Item :=
  { title := "t".toList, link := [], guid := [], pubDate := 0,
    desc := "hi".toList, image := none }

/-- A feed-mode configuration with empty keyword lists and default limits. -/
def cfgC9 : Config :=
  { title := [], link := [], description := [], keywords := [],
    excludeKeywords := [], maxItems := 30, daysLookback := 14,
    siteBase := [], articlePageBase := [], csvUrl := [] }

/-- A spreadsheet-mode configuration with empty keyword lists. -/
def cfgC9s : Config :=
  { title := [], link := [], description := [], keywords := [],
    excludeKeywords := [], maxItems := 30, daysLookback := 14,
    siteBase := [], articlePageBase := [], csvUrl := "u".toList }

/-- A date parser that fails on every input. -/
def pdC9 : Str → Option Int := fun _ => none

/-- An entry with every field empty: id and link are both missing. -/
def entryC9 : Entry :=
  { title := [], link := [], summary := [], description := [],
    id := [], published := [], updated := [], image := none }

/-- The item `fetch_rss` builds from `entryC9` at `now = 0`: its guid is empty. -/
def itemC9 : Item :=
  { title := [], link := [], guid := [], pubDate := 0, desc := [], image := none }

/-- A CSV row with no explicit guid. -/
def rowC9 : Row :=
  { title := "t".toList, url := "u".toList, summary := [], pubDate := [], guid := [] }

/-- The item `fetch_google_sheet` builds from `rowC9` at `now = 0`:
its guid fell back to the link. -/
def itemC9s : Item :=
  { title := "t".toList, link := "u".toList, guid := "u".toList, pubDate := 0,
    desc := [], image := none }

/-! General lemmas about the Python string helpers. -/

lemma dropWhile_eq_self_of_head (p : Char → Bool) (l : Str)
    (h : ∀ c, l.head? = some c → p c = false) : l.dropWhile p = l := by
  cases l with
  | nil => rfl
  | cons c t => simp [List.dropWhile, h c rfl]

lemma head_dropWhile (p : Char → Bool) (l : Str) (c : Char)
    (h : (l.dropWhile p).head? = some c) : p c = false := by
  induction l with
  | nil => simp [List.dropWhile] at h
  | cons d t ih =>
    by_cases hp : p d
    · exact ih (by simpa [List.dropWhile, hp] using h)
    · simp only [List.dropWhile, hp] at h
      simp only [List.head?_cons, Option.some.injEq] at h
      subst h
      simpa using hp

lemma pyStrip_pre (p : Char → Bool) (s : Str) : pyStrip p s <+: s.dropWhile p := by
  unfold pyStrip
  have h : (s.dropWhile p).reverse.dropWhile p <:+ (s.dropWhile p).reverse :=
    List.dropWhile_suffix p
  have h2 := List.reverse_prefix.mpr h
  simpa using h2

lemma pyStrip_inf (p : Char → Bool) (s : Str) : pyStrip p s <:+: s :=
  List.IsInfix.trans ( List.IsPrefix.isInfix (pyStrip_pre p s))
    ( List.IsSuffix.isInfix ( List.dropWhile_suffix p))

lemma mem_pyStrip (p : Char → Bool) {s : Str} {c : Char}
    (h : c ∈ pyStrip p s) : c ∈ s :=
  List.Sublist.subset ( List.IsInfix.sublist (pyStrip_inf p s)) h

lemma head_of_pre {l₁ l₂ : Str} (h : l₁ <+: l₂) (hne : l₁ ≠ []) :
    l₂.head? = l₁.head? := by
  obtain ⟨t, rfl⟩ := h
  cases l₁ with
  | nil => exact absurd rfl hne
  | cons a l => simp

lemma head_pyStrip (p : Char → Bool) (s : Str) (c : Char)
    (h : (pyStrip p s).head? = some c) : p c = false := by
  have hne : pyStrip p s ≠ [] := by
    intro he
    rw [he] at h
    simp at h
  have := head_of_pre (pyStrip_pre p s) hne
  exact head_dropWhile p s c (this ▸ h)

lemma last_pyStrip (p : Char → Bool) (s : Str) (c : Char)
    (h : (pyStrip p s).getLast? = some c) : p c = false := by
  unfold pyStrip at h
  rw [List.getLast?_reverse] at h
  exact head_dropWhile p (s.dropWhile p).reverse c h

lemma pyStrip_eq_self (p : Char → Bool) (w : Str)
    (hh : ∀ c, w.head? = some c → p c = false)
    (hl : ∀ c, w.getLast? = some c → p c = false) : pyStrip p w = w := by
  unfold pyStrip
  rw [dropWhile_eq_self_of_head p w hh]
  rw [dropWhile_eq_self_of_head p w.reverse (by
    intro c hc
    rw [List.head?_reverse] at hc
    exact hl c hc)]
  exact List.reverse_reverse w

lemma pyStrip_idem (p : Char → Bool) (s : Str) :
    pyStrip p (pyStrip p s) = pyStrip p s :=
  pyStrip_eq_self p (pyStrip p s) (head_pyStrip p s) (last_pyStrip p s)

lemma stripWs_idem (s : Str) : stripWs (stripWs s) = stripWs s :=
  pyStrip_idem Char.isWhitespace s

lemma pyStrip_eq_self_of_all (p : Char → Bool) (w : Str)
    (h : ∀ c ∈ w, p c = false) : pyStrip p w = w :=
  pyStrip_eq_self p w
    (fun c hc => h c (List.mem_of_mem_head? (by rw [hc]; exact rfl)))
    (fun c hc => h c (by
      have : c ∈ w.reverse := List.mem_of_mem_head? (by
        rw [List.head?_reverse, hc]; exact rfl)
      simpa using this))

lemma isPrefB_iff (n h : Str) : isPrefB n h = true ↔ ∃ t, h = n ++ t := by
  induction n generalizing h with
  | nil => simp [isPrefB]
  | cons c cs ih =>
    cases h with
    | nil =>
      simp only [isPrefB]
      constructor
      · intro hfalse; exact absurd hfalse (by simp)
      · rintro ⟨t, ht⟩; exact absurd ht (by simp)
    | cons d ds =>
      simp only [isPrefB, Bool.and_eq_true, beq_iff_eq, ih]
      constructor
      · rintro ⟨rfl, t, rfl⟩; exact ⟨t, rfl⟩
      · rintro ⟨t, ht⟩
        rw [List.cons_append] at ht
        injection ht with h1 h2
        exact ⟨h1.symm, t, h2⟩

lemma subStr_iff (n h : Str) : subStr n h = true ↔ ∃ p q, h = p ++ n ++ q := by
  induction h with
  | nil =>
    simp only [subStr, isPrefB_iff]
    constructor
    · rintro ⟨t, ht⟩
      refine ⟨[], t, by simpa using ht⟩
    · rintro ⟨p, q, hpq⟩
      have hp : p = [] ∧ n ++ q = [] := by
        rw [← List.append_eq_nil]
        rw [List.append_assoc] at hpq
        exact hpq.symm
      have hn : n = [] ∧ q = [] := by
        rw [← List.append_eq_nil]
        exact hp.2
      exact ⟨[], by simp [hn.1]⟩
  | cons d ds ih =>
    simp only [subStr, Bool.or_eq_true, isPrefB_iff, ih]
    constructor
    · rintro (⟨t, ht⟩ | ⟨p, q, hpq⟩)
      · exact ⟨[], t, by simpa using ht⟩
      · exact ⟨d :: p, q, by simp [hpq]⟩
    · rintro ⟨p, q, hpq⟩
      cases p with
      | nil =>
        left
        exact ⟨q, by simpa using hpq⟩
      | cons e es =>
        right
        rw [List.cons_append, List.cons_append] at hpq
        injection hpq with h1 h2
        exact ⟨es, q, by simpa using h2⟩

/-! Lemmas about `slugify`. -/

/-- Adjacency invariant of collapsed strings: a hyphen is always followed by
an alphanumeric character. -/
def okRun (a b : Char) : Prop := a = '-' → isSlugChar b = true

lemma slug_ne_hyphen {c : Char} (h : isSlugChar c = true) : c ≠ '-' := by
  intro he
  rw [he] at h
  exact absurd h (by decide)

lemma mem_collapseGo {b : Bool} {s : Str} {c : Char}
    (h : c ∈ collapseGo b s) : isSlugChar c = true ∨ c = '-' := by
  induction s generalizing b with
  | nil => simp [collapseGo] at h
  | cons d t ih =>
    by_cases hd : isSlugChar d
    · rw [collapseGo, if_pos hd] at h
      rcases List.mem_cons.mp h with rfl | h2
      · exact Or.inl hd
      · exact ih h2
    · rw [collapseGo, if_neg hd] at h
      cases b with
      | true => exact ih (by simpa using h)
      | false =>
        simp only [Bool.false_eq_true, if_false] at h
        rcases List.mem_cons.mp h with rfl | h2
        · exact Or.inr rfl
        · exact ih h2

lemma head_collapseGo_true {s : Str} {c : Char}
    (h : (collapseGo true s).head? = some c) : isSlugChar c = true := by
  induction s with
  | nil => simp [collapseGo] at h
  | cons d t ih =>
    by_cases hd : isSlugChar d
    · rw [collapseGo, if_pos hd] at h
      simp only [List.head?_cons, Option.some.injEq] at h
      exact h ▸ hd
    · rw [collapseGo, if_neg hd] at h
      exact ih (by simpa using h)

lemma chain_collapseGo (s : Str) (b : Bool) : (collapseGo b s).Chain' okRun := by
  induction s generalizing b with
  | nil => simp [collapseGo]
  | cons d t ih =>
    by_cases hd : isSlugChar d
    · rw [collapseGo, if_pos hd]
      rw [List.chain'_cons']
      refine ⟨?_, ih false⟩
      intro y _
      intro he
      exact absurd he (slug_ne_hyphen hd)
    · rw [collapseGo, if_neg hd]
      cases b with
      | true => simpa using ih true
      | false =>
        simp only [Bool.false_eq_true, if_false]
        rw [List.chain'_cons']
        refine ⟨?_, ih true⟩
        intro y hy _
        exact head_collapseGo_true hy

lemma collapseGo_fixed (w : Str)
    (hmem : ∀ c ∈ w, isSlugChar c = true ∨ c = '-')
    (hch : w.Chain' okRun) :
    collapseGo false w = w ∧
      ((∀ c, w.head? = some c → isSlugChar c = true) → collapseGo true w = w) := by
  induction w with
  | nil => exact ⟨rfl, fun _ => rfl⟩
  | cons c rest ih =>
    have hmemr : ∀ d ∈ rest, isSlugChar d = true ∨ d = '-' :=
      fun d hd => hmem d (List.mem_cons_of_mem c hd)
    have hchr : rest.Chain' okRun := List.Chain'.tail hch
    have ihr := ih hmemr hchr
    rcases hmem c (List.mem_cons_self c rest) with hc | hc
    · constructor
      · rw [collapseGo, if_pos hc, ihr.1]
      · intro _
        rw [collapseGo, if_pos hc, ihr.1]
    · subst hc
      constructor
      · rw [collapseGo, if_neg (by decide)]
        simp only [Bool.false_eq_true, if_false]
        have htrue : collapseGo true rest = rest := by
          apply ihr.2
          intro d hd
          have := (List.chain'_cons'.mp hch).1 d (by rw [hd]; exact rfl)
          exact this rfl
        rw [htrue]
      · intro hhead
        have := hhead '-' rfl
        exact absurd this (by decide)

lemma collapseRuns_fixed (w : Str)
    (hmem : ∀ c ∈ w, isSlugChar c = true ∨ c = '-')
    (hch : w.Chain' okRun) : collapseRuns w = w :=
  (collapseGo_fixed w hmem hch).1

lemma toLower_fixed (c : Char) (h : isSlugChar c = true ∨ c = '-') :
    Char.toLower c = c := by
  rcases h with h | h
  · simp only [isSlugChar, Bool.or_eq_true, Bool.and_eq_true,
      decide_eq_true_eq] at h
    unfold Char.toLower
    rw [if_neg]
    omega
  · subst h
    decide

lemma pyLower_fixed (w : Str) (h : ∀ c ∈ w, isSlugChar c = true ∨ c = '-') :
    pyLower w = w := by
  induction w with
  | nil => rfl
  | cons c t ih =>
    unfold pyLower at ih ⊢
    rw [List.map_cons]
    rw [toLower_fixed c (h c (List.mem_cons_self c t))]
    rw [ih fun d hd => h d (List.mem_cons_of_mem c hd)]

lemma not_ws_of_slug (c : Char) (h : isSlugChar c = true ∨ c = '-') :
    Char.isWhitespace c = false := by
  rcases h with h | h
  · simp only [Char.isWhitespace, Bool.or_eq_false_iff, decide_eq_false_iff_not]
    refine ⟨⟨⟨?_, ?_⟩, ?_⟩, ?_⟩ <;>
      · intro he
        rw [he] at h
        exact absurd h (by decide)
  · subst h
    decide

lemma stripWs_fixed_of_slug (w : Str)
    (h : ∀ c ∈ w, isSlugChar c = true ∨ c = '-') : stripWs w = w :=
  pyStrip_eq_self_of_all Char.isWhitespace w fun c hc => not_ws_of_slug c (h c hc)

/-- Characterisation of the non-fallback branch of `slugify`. -/
lemma slugify_eq (s : Str) :
    slugify s = "post".toList ∨
      (slugify s =
        (pyStrip (fun c => c == '-') (collapseRuns (pyLower (stripWs s)))).take 80 ∧
        slugify s ≠ []) := by
  unfold slugify
  by_cases h :
      (pyStrip (fun c => c == '-') (collapseRuns (pyLower (stripWs s)))).take 80 = []
  · left
    rw [if_pos h]
  · right
    rw [if_neg h]
    exact ⟨rfl, h⟩

lemma post_eq_chars : ("post".toList : Str) = ['p', 'o', 's', 't'] := rfl

lemma char_mem_post {c : Char} (h : c ∈ ("post".toList : Str)) :
    isSlugChar c = true := by
  rw [post_eq_chars] at h
  have : c = 'p' ∨ c = 'o' ∨ c = 's' ∨ c = 't' := by simpa using h
  rcases this with rfl | rfl | rfl | rfl <;> decide

lemma mem_slugify {s : Str} {c : Char} (h : c ∈ slugify s) :
    isSlugChar c = true ∨ c = '-' := by
  rcases slugify_eq s with he | ⟨he, _⟩ <;> rw [he] at h
  · exact Or.inl (char_mem_post h)
  · have h2 := List.Sublist.subset (List.take_sublist 80 _) h
    exact mem_collapseGo (mem_pyStrip _ h2)

lemma slugify_ne_nil (s : Str) : slugify s ≠ [] := by
  rcases slugify_eq s with he | ⟨_, hne⟩
  · rw [he]
    decide
  · exact hne

lemma slugify_length (s : Str) : (slugify s).length ≤ 80 := by
  rcases slugify_eq s with he | ⟨he, _⟩ <;> rw [he]
  · decide
  · exact List.length_take_le 80 _

lemma chain_slugify (s : Str) : (slugify s).Chain' okRun := by
  rcases slugify_eq s with he | ⟨he, _⟩ <;> rw [he]
  · rw [post_eq_chars]
    rw [List.chain'_cons, List.chain'_cons, List.chain'_cons]
    exact ⟨fun hcon => absurd hcon (by decide),
      fun hcon => absurd hcon (by decide),
      fun hcon => absurd hcon (by decide),
      List.chain'_singleton 't'⟩
  · apply List.Chain'.infix (chain_collapseGo (pyLower (stripWs s)) false)
    exact List.IsInfix.trans
      ( List.IsPrefix.isInfix ( List.take_prefix 80 _))
      (pyStrip_inf _ _)

lemma head_slugify (s : Str) (c : Char) (h : (slugify s).head? = some c) :
    isSlugChar c = true := by
  rcases slugify_eq s with he | ⟨he, hne⟩
  · rw [he, post_eq_chars] at h
    simp only [List.head?_cons, Option.some.injEq] at h
    rw [← h]
    decide
  · rw [he] at h hne
    have hpre : (pyStrip (fun c => c == '-')
        (collapseRuns (pyLower (stripWs s)))).take 80 <+:
        pyStrip (fun c => c == '-') (collapseRuns (pyLower (stripWs s))) :=
      List.take_prefix 80 _
    have hh := head_of_pre hpre hne
    have hstep := head_pyStrip (fun c => c == '-') _ c (hh.trans h)
    have hcm : c ∈ slugify s := List.mem_of_mem_head? (by
      rw [he, h]; exact rfl)
    rcases mem_slugify hcm with hgood | hbad
    · exact hgood
    · rw [hbad] at hstep
      exact absurd hstep (by decide)

lemma slugify_idem_aux (s : Str) (h : (slugify s).getLast? ≠ some '-') :
    slugify (slugify s) = slugify s := by
  rcases slugify_eq s with he | ⟨_, hne⟩
  · rw [he]
    decide
  · have hmem : ∀ c ∈ slugify s, isSlugChar c = true ∨ c = '-' :=
      fun c hc => mem_slugify hc
    have h1 : stripWs (slugify s) = slugify s := stripWs_fixed_of_slug _ hmem
    have h2 : pyLower (slugify s) = slugify s := pyLower_fixed _ hmem
    have h3 : collapseRuns (slugify s) = slugify s :=
      collapseRuns_fixed _ hmem (chain_slugify s)
    have h4 : pyStrip (fun c => c == '-') (slugify s) = slugify s := by
      apply pyStrip_eq_self
      · intro c hc
        have := head_slugify s c hc
        simpa using slug_ne_hyphen this
      · intro c hc
        have hcne : c ≠ '-' := by
          intro he2
          rw [he2] at hc
          exact h hc
        simpa using hcne
    have h5 : (slugify s).take 80 = slugify s :=
      List.take_of_length_le (slugify_length s)
    have hgoal : slugify (slugify s) =
        if (pyStrip (fun c => c == '-')
            (collapseRuns (pyLower (stripWs (slugify s))))).take 80 = []
        then "post".toList
        else (pyStrip (fun c => c == '-')
            (collapseRuns (pyLower (stripWs (slugify s))))).take 80 := rfl
    rw [hgoal, h1, h2, h3, h4, h5, if_neg hne]

/-! Lemmas about `dedupe_and_sort`. -/

/-- The descending order on items used by the sort. -/
def geDate (a b : Item) : Prop := b.pubDate ≤ a.pubDate

lemma mem_insertDesc {a x : Item} {l : List Item} :
    a ∈ insertDesc x l ↔ a = x ∨ a ∈ l := by
  induction l with
  | nil => simp [insertDesc]
  | cons y ys ih =>
    by_cases hc : y.pubDate ≤ x.pubDate
    · rw [insertDesc, if_pos hc]
      simp
    · rw [insertDesc, if_neg hc]
      rw [List.mem_cons, ih, List.mem_cons]
      tauto

lemma mem_sortDesc {a : Item} {l : List Item} : a ∈ sortDesc l ↔ a ∈ l := by
  induction l with
  | nil => simp [sortDesc]
  | cons x xs ih =>
    rw [sortDesc, mem_insertDesc, ih, List.mem_cons]

lemma pairwise_insertDesc {x : Item} {l : List Item}
    (h : l.Pairwise geDate) : (insertDesc x l).Pairwise geDate := by
  induction l with
  | nil => simp [insertDesc, geDate]
  | cons y ys ih =>
    rw [List.pairwise_cons] at h
    by_cases hc : y.pubDate ≤ x.pubDate
    · rw [insertDesc, if_pos hc]
      rw [List.pairwise_cons]
      refine ⟨?_, List.pairwise_cons.mpr h⟩
      intro z hz
      rcases List.mem_cons.mp hz with rfl | hz2
      · exact hc
      · exact le_trans (h.1 z hz2) hc
    · rw [insertDesc, if_neg hc]
      rw [List.pairwise_cons]
      refine ⟨?_, ih h.2⟩
      intro z hz
      rcases mem_insertDesc.mp hz with rfl | hz2
      · exact le_of_lt (lt_of_not_le hc)
      · exact h.1 z hz2

lemma pairwise_sortDesc (l : List Item) : (sortDesc l).Pairwise geDate := by
  induction l with
  | nil => simp [sortDesc]
  | cons x xs ih => exact pairwise_insertDesc ih

lemma dedupePass_sublist (seen : List Str) (l : List Item) :
    (dedupePass seen l).Sublist l := by
  induction l generalizing seen with
  | nil => simp [dedupePass]
  | cons it rest ih =>
    rw [dedupePass]
    by_cases hc : dedupeKey it ∈ seen
    · rw [if_pos hc]
      exact List.Sublist.cons it (ih seen)
    · rw [if_neg hc]
      exact List.Sublist.cons₂ it (ih (dedupeKey it :: seen))

lemma dedupePass_keys (l : List Item) (seen : List Str) :
    ((dedupePass seen l).Pairwise fun a b => dedupeKey a ≠ dedupeKey b) ∧
      ∀ x ∈ dedupePass seen l, dedupeKey x ∉ seen := by
  induction l generalizing seen with
  | nil => simp [dedupePass]
  | cons it rest ih =>
    rw [dedupePass]
    by_cases hc : dedupeKey it ∈ seen
    · rw [if_pos hc]
      exact ih seen
    · rw [if_neg hc]
      have ihr := ih (dedupeKey it :: seen)
      constructor
      · rw [List.pairwise_cons]
        refine ⟨?_, ihr.1⟩
        intro x hx he
        have := ihr.2 x hx
        rw [← he] at this
        exact this (List.mem_cons_self _ _)
      · intro x hx
        rcases List.mem_cons.mp hx with rfl | hx2
        · exact hc
        · intro hmem
          exact ihr.2 x hx2 (List.mem_cons_of_mem _ hmem)

lemma mem_dedupe_and_sort {a : Item} {m : Nat} {items : List Item}
    (h : a ∈ dedupe_and_sort m items) : a ∈ items := by
  unfold dedupe_and_sort at h
  have h1 := List.Sublist.subset (List.take_sublist m _) h
  have h2 := List.Sublist.subset (dedupePass_sublist [] (sortDesc items)) h1
  exact mem_sortDesc.mp h2

lemma pairwise_keys_dedupe (m : Nat) (items : List Item) :
    (dedupe_and_sort m items).Pairwise fun a b => dedupeKey a ≠ dedupeKey b := by
  unfold dedupe_and_sort
  exact List.Pairwise.sublist (List.take_sublist m _)
    (dedupePass_keys (sortDesc items) []).1

lemma pairwise_date_dedupe (m : Nat) (items : List Item) :
    (dedupe_and_sort m items).Pairwise geDate := by
  unfold dedupe_and_sort
  exact List.Pairwise.sublist (List.take_sublist m _)
    (List.Pairwise.sublist (dedupePass_sublist [] _) (pairwise_sortDesc items))

lemma length_dedupe_and_sort (m : Nat) (items : List Item) :
    (dedupe_and_sort m items).length ≤ m :=
  List.length_take_le m _

/-- Pairwise-distinct guids follow from pairwise-distinct dedupe keys on any
list whose items have the fetcher invariant "empty guid forces empty link". -/
lemma pairwise_guid_of_keys {l : List Item}
    (hinv : ∀ it ∈ l, it.guid = [] → it.link = [])
    (hkeys : l.Pairwise fun a b => dedupeKey a ≠ dedupeKey b) :
    l.Pairwise fun a b => a.guid ≠ b.guid := by
  apply List.Pairwise.imp_of_mem ?_ hkeys
  intro a b ha hb hk he
  apply hk
  unfold dedupeKey
  by_cases hga : a.guid = []
  · have hgb : b.guid = [] := by rw [← he]; exact hga
    rw [if_pos hga, if_pos hgb, hinv a ha hga, hinv b hb hgb]
  · have hgb : b.guid ≠ [] := by rw [← he]; exact hga
    rw [if_neg hga, if_neg hgb]
    exact he

/-! Lemmas about the fetchers. -/

/-- Everything a successful `entryItem` tells us about the produced item. -/
lemma entryGuid_empty {e : Entry} (h : entryGuid e = []) : stripWs e.link = [] := by
  unfold entryGuid at h
  split at h
  next hc => exact absurd h (by simpa using hc)
  next hc => exact h

lemma entryGuid_of_empty_id {e : Entry} (h : e.id = []) :
    entryGuid e = stripWs e.link := by
  unfold entryGuid
  rw [if_neg (show ¬ e.id ≠ [] by simpa using h)]

lemma stripWs_entryDesc (e : Entry) : stripWs (entryDesc e) = entryDesc e := by
  unfold entryDesc
  split
  · exact stripWs_idem e.summary
  · exact stripWs_idem e.description

/-- Everything a successful `entryItem` tells us about the produced item. -/
lemma entryItem_props {cfg : Config} {pd : Str → Option Int} {now cutoff : Int}
    {e : Entry} {it : Item} (h : entryItem cfg pd now cutoff e = some it) :
    cutoff ≤ it.pubDate ∧
      (it.guid = [] → it.link = []) ∧
      stripWs it.desc = it.desc ∧
      matchesB cfg.keywords cfg.excludeKeywords (it.title ++ '\n' :: it.desc) = true ∧
      (e.id = [] → it.guid = it.link) := by
  unfold entryItem at h
  split at h
  next h1 => exact absurd h (by simp)
  next h1 =>
    split at h
    next h2 => exact absurd h (by simp)
    next h2 =>
      injection h with h3
      subst h3
      refine ⟨le_of_not_lt h1, ?_, ?_, ?_, ?_⟩
      · exact fun hg => entryGuid_empty hg
      · exact stripWs_entryDesc e
      · simpa using h2
      · exact fun hid => entryGuid_of_empty_id hid

lemma rowGuid_of_empty {row : Row} (h : stripWs row.guid = []) :
    rowGuid row = stripWs row.url := by
  unfold rowGuid
  rw [if_neg (show ¬ stripWs row.guid ≠ [] by simpa using h)]

lemma rowGuid_ne {row : Row} (hurl : stripWs row.url ≠ []) : rowGuid row ≠ [] := by
  unfold rowGuid
  split
  next hc => exact hc
  next hc => exact hurl

/-- Everything a successful `rowItem` tells us about the produced item. -/
lemma rowItem_props {cfg : Config} {pd : Str → Option Int} {now : Int}
    {row : Row} {it : Item} (h : rowItem cfg pd now row = some it) :
    it.guid ≠ [] ∧
      stripWs it.desc = it.desc ∧
      matchesB cfg.keywords cfg.excludeKeywords (it.title ++ '\n' :: it.desc) = true ∧
      (stripWs row.guid = [] → it.guid = it.link) := by
  unfold rowItem at h
  split at h
  next h1 => exact absurd h (by simp)
  next h1 =>
    split at h
    next h2 => exact absurd h (by simp)
    next h2 =>
      have hurl : stripWs row.url ≠ [] := fun hc => h1 (Or.inr hc)
      injection h with h3
      subst h3
      refine ⟨rowGuid_ne hurl, stripWs_idem row.summary, ?_, ?_⟩
      · simpa using h2
      · exact fun hg => rowGuid_of_empty hg

def rssCandidates (cfg : Config) (pd : Str → Option Int) (now : Int)
    (feeds : List (List Entry)) : List Item :=
  (feeds.map fun entries =>
    entries.filterMap (entryItem cfg pd now (now - cfg.daysLookback * 86400))).flatten

lemma fetch_rss_eq (cfg : Config) (pd : Str → Option Int) (now : Int)
    (feeds : List (List Entry)) :
    fetch_rss cfg pd now feeds =
      dedupe_and_sort cfg.maxItems (rssCandidates cfg pd now feeds) := rfl

lemma mem_rssCandidates {cfg : Config} {pd : Str → Option Int} {now : Int}
    {feeds : List (List Entry)} {it : Item}
    (h : it ∈ rssCandidates cfg pd now feeds) :
    ∃ e, entryItem cfg pd now (now - cfg.daysLookback * 86400) e = some it := by
  unfold rssCandidates at h
  rw [List.mem_flatten] at h
  obtain ⟨l, hl, hit⟩ := h
  rw [List.mem_map] at hl
  obtain ⟨entries, _, rfl⟩ := hl
  rw [List.mem_filterMap] at hit
  obtain ⟨e, _, he⟩ := hit
  exact ⟨e, he⟩

lemma mem_fetch_rss {cfg : Config} {pd : Str → Option Int} {now : Int}
    {feeds : List (List Entry)} {it : Item} (h : it ∈ fetch_rss cfg pd now feeds) :
    ∃ e, entryItem cfg pd now (now - cfg.daysLookback * 86400) e = some it := by
  rw [fetch_rss_eq] at h
  exact mem_rssCandidates (mem_dedupe_and_sort h)

lemma mem_fetch_google_sheet {cfg : Config} {pd : Str → Option Int} {now : Int}
    {rows : List Row} {it : Item} (h : it ∈ fetch_google_sheet cfg pd now rows) :
    ∃ row, rowItem cfg pd now row = some it := by
  unfold fetch_google_sheet at h
  by_cases hc : cfg.csvUrl = []
  · rw [if_pos hc] at h
    exact absurd h (by simp)
  · rw [if_neg hc] at h
    have h2 := mem_dedupe_and_sort h
    rw [List.mem_filterMap] at h2
    obtain ⟨row, _, hr⟩ := h2
    exact ⟨row, hr⟩

/-! The claims. -/

/-- C1 counterexample: the claim fails in spreadsheet mode, which applies no
recency cutoff — with `days_lookback = 14`, a row whose `pubDate` parses to
instant `0` survives a run at `now = 10000000` (well past the cutoff). -/
theorem C1_cex :
    ∃ it ∈ fetch_google_sheet cfgC1c pdC1c 10000000 [rowC1c],
      it.pubDate < 10000000 - 14 * 86400 := by decide

/-- C1 (amended): in feed-aggregation mode, every item in the final list has a
publish timestamp not older than `days_lookback` days before "now"; an entry
whose date string is missing or unparsable is assigned "now", which passes the
cutoff whenever `days_lookback ≥ 0`.  (The spreadsheet fetcher applies no
recency cutoff.) -/
theorem C1_thm (cfg : Config) (pd : Str → Option Int) (now : Int)
    (feeds : List (List Entry)) :
    (∀ it ∈ fetch_rss cfg pd now feeds,
      now - cfg.daysLookback * 86400 ≤ it.pubDate) ∧
    (∀ e : Entry, entryPub e = [] ∨ pd (entryPub e) = none →
      entryDate pd now e = now) ∧
    (0 ≤ cfg.daysLookback → now - cfg.daysLookback * 86400 ≤ now) := by
  refine ⟨?_, ?_, ?_⟩
  · intro it hit
    obtain ⟨e, he⟩ := mem_fetch_rss hit
    exact (entryItem_props he).1
  · intro e hpd
    unfold entryDate
    rcases hpd with hp | hp
    · rw [if_neg (show ¬ entryPub e ≠ [] by simpa using hp)]
    · split
      · unfold norm_pubdate
        rw [hp]
      · rfl
  · intro h
    have h2 : 0 ≤ cfg.daysLookback * 86400 := by
      have := mul_le_mul_of_nonneg_right h (show (0 : Int) ≤ 86400 by norm_num)
      simpa using this
    omega

/-- C1 witness: a feed entry with an unparsable date is assigned `now` and is
retained, satisfying the (trivially passed) cutoff. -/
theorem C1_w :
    ((1728000 : Int) - cfgC1w.daysLookback * 86400 ≤ itemC1w.pubDate) ∧
      entryDate pdC1w 1728000 entryC1w = 1728000 ∧
      ((1728000 : Int) - cfgC1w.daysLookback * 86400 ≤ 1728000) :=
  ⟨(C1_thm cfgC1w pdC1w 1728000 [[entryC1w]]).1 itemC1w (by decide),
   (C1_thm cfgC1w pdC1w 1728000 [[entryC1w]]).2.1 entryC1w (Or.inr rfl),
   (C1_thm cfgC1w pdC1w 1728000 [[entryC1w]]).2.2 (by decide)⟩

/-- C2 counterexample: two candidate items with empty guids and distinct links
both survive `dedupe_and_sort` (their dedupe keys are their links), yet their
guids are equal, refuting "for every input list … guids differ". -/
theorem C2_cex :
    dedupe_and_sort 30 [itC2a, itC2b] = [itC2a, itC2b] ∧
      itC2a.guid = itC2b.guid ∧ itC2a ≠ itC2b := by decide

/-- C2 (amended): no two items returned by `dedupe_and_sort` share a dedupe
key (guid falling back to link); the guids themselves can coincide only when
both are empty, which the fetchers only produce alongside an empty link — so
for the candidate lists either fetcher actually builds, no two items of the
final list have equal guids. -/
theorem C2_thm :
    (∀ (m : Nat) (items : List Item),
      (dedupe_and_sort m items).Pairwise fun a b => dedupeKey a ≠ dedupeKey b) ∧
    (∀ (cfg : Config) (pd : Str → Option Int) (now : Int)
        (feeds : List (List Entry)),
      (fetch_rss cfg pd now feeds).Pairwise fun a b => a.guid ≠ b.guid) ∧
    (∀ (cfg : Config) (pd : Str → Option Int) (now : Int) (rows : List Row),
      (fetch_google_sheet cfg pd now rows).Pairwise fun a b => a.guid ≠ b.guid) := by
  refine ⟨fun m items => pairwise_keys_dedupe m items, ?_, ?_⟩
  · intro cfg pd now feeds
    rw [fetch_rss_eq]
    apply pairwise_guid_of_keys ?_ (pairwise_keys_dedupe _ _)
    intro it hit hg
    obtain ⟨e, he⟩ := mem_rssCandidates (mem_dedupe_and_sort hit)
    exact (entryItem_props he).2.1 hg
  · intro cfg pd now rows
    unfold fetch_google_sheet
    by_cases hc : cfg.csvUrl = []
    · rw [if_pos hc]
      exact List.Pairwise.nil
    · rw [if_neg hc]
      apply pairwise_guid_of_keys ?_ (pairwise_keys_dedupe _ _)
      intro it hit hg
      have h2 := mem_dedupe_and_sort hit
      rw [List.mem_filterMap] at h2
      obtain ⟨row, _, hr⟩ := h2
      exact absurd hg (rowItem_props hr).1

/-- C3: the list returned by `dedupe_and_sort` has length at most `max_items`
and is in non-increasing order of publish timestamp. -/
theorem C3_thm (m : Nat) (items : List Item) :
    (dedupe_and_sort m items).length ≤ m ∧
      (dedupe_and_sort m items).Pairwise fun a b => b.pubDate ≤ a.pubDate :=
  ⟨length_dedupe_and_sort m items, pairwise_date_dedupe m items⟩

lemma enrich_long (f : Str → Except Unit Page) (url desc : Str)
    (h : 500 ≤ (stripWs desc).length) :
    enrich_summary f url desc = stripWs desc := by
  unfold enrich_summary
  rw [if_pos h]

lemma enrich_error (fetch : Str → Except Unit Page) (url desc : Str)
    (h : fetch url = Except.error ()) :
    enrich_summary fetch url desc = stripWs desc := by
  unfold enrich_summary
  split
  · rfl
  · rw [h]

/-- C4: an item surviving the keyword filter has, when the keyword list is
non-empty, at least one include keyword occurring as a substring of the
lowercased title-plus-description, and no exclude keyword occurring in it;
and every item produced by the feed fetcher passed that filter. -/
theorem C4_thm :
    (∀ (kws excl : List Str) (title desc : Str),
      matchesB kws excl (title ++ '\n' :: desc) = true →
        (kws ≠ [] →
          ∃ k ∈ kws, ∃ p q, pyLower (title ++ '\n' :: desc) = p ++ k ++ q) ∧
        (∀ x ∈ excl, ¬ ∃ p q, pyLower (title ++ '\n' :: desc) = p ++ x ++ q)) ∧
    (∀ (cfg : Config) (pd : Str → Option Int) (now cutoff : Int)
        (e : Entry) (it : Item),
      entryItem cfg pd now cutoff e = some it →
        matchesB cfg.keywords cfg.excludeKeywords (it.title ++ '\n' :: it.desc) = true) := by
  constructor
  · intro kws excl title desc h
    unfold matchesB at h
    split at h
    next h1 => exact absurd h (by simp)
    next h1 =>
      split at h
      next h2 => exact absurd h (by simp)
      next h2 =>
        constructor
        · intro hk
          by_cases hany :
              (kws.any fun k => subStr k (pyLower (title ++ '\n' :: desc))) = true
          · obtain ⟨k, hkmem, hsub⟩ := List.any_eq_true.mp hany
            exact ⟨k, hkmem, (subStr_iff k _).mp hsub⟩
          · exfalso
            apply h1
            rw [Bool.and_eq_true]
            have hfalse :
                (kws.any fun k => subStr k (pyLower (title ++ '\n' :: desc))) = false := by
              revert hany
              cases kws.any fun k => subStr k (pyLower (title ++ '\n' :: desc)) <;> simp
            rw [hfalse]
            exact ⟨by simpa using hk, rfl⟩
        · intro x hx hex
          apply h2
          rw [Bool.and_eq_true]
          have hne : excl ≠ [] := by
            intro he
            rw [he] at hx
            exact absurd hx (List.not_mem_nil x)
          refine ⟨by simpa using hne, ?_⟩
          exact List.any_eq_true.mpr ⟨x, hx, (subStr_iff x _).mpr hex⟩
  · intro cfg pd now cutoff e it h
    exact (entryItem_props h).2.2.2.1

/-- C4 witness: with keywords `["man utd"]` and excludes `["betting"]`, the
entry titled "Big Man Utd news" passes the filter and the two properties hold. -/
theorem C4_w :
    ((["man utd".toList] : List Str) ≠ [] →
      ∃ k ∈ (["man utd".toList] : List Str), ∃ p q,
        pyLower ("Big Man Utd news".toList ++ '\n' :: "x".toList) = p ++ k ++ q) ∧
    (∀ x ∈ (["betting".toList] : List Str), ¬ ∃ p q,
        pyLower ("Big Man Utd news".toList ++ '\n' :: "x".toList) = p ++ x ++ q) :=
  C4_thm.1 ["man utd".toList] ["betting".toList]
    "Big Man Utd news".toList "x".toList (by decide)

/-- C5 counterexample: slugify is not idempotent.  On the 82-character input
`"a-a-…a-"`, the hyphen-strip happens before the 80-character truncation, so
the slug ends in a hyphen and a second application strips it. -/
theorem C5_cex : slugify (slugify sC5) ≠ slugify sC5 := by decide

/-- C5 (amended): slugify is deterministic; its result is non-empty, at most
80 characters, and consists of lowercase alphanumerics and hyphens; it is
idempotent on every input whose slug does not end in a hyphen (truncation to
80 characters can leave a trailing hyphen, which a reapplication strips). -/
theorem C5_thm (s : Str) :
    slugify s ≠ [] ∧
      (slugify s).length ≤ 80 ∧
      (∀ c ∈ slugify s, isSlugChar c = true ∨ c = '-') ∧
      (∀ t, s = t → slugify s = slugify t) ∧
      ((slugify s).getLast? ≠ some '-' → slugify (slugify s) = slugify s) :=
  ⟨slugify_ne_nil s, slugify_length s, fun _ hc => mem_slugify hc,
    fun _ ht => by rw [ht], slugify_idem_aux s⟩

/-- C5 witness: on "Man Utd win" the slug is "man-utd-win"; its first
character is alphanumeric, determinism is immediate, and it does not end in a
hyphen, so the double application is a fixpoint. -/
theorem C5_w :
    (isSlugChar 'm' = true ∨ 'm' = '-') ∧
      slugify "Man Utd win".toList = slugify "Man Utd win".toList ∧
      slugify (slugify "Man Utd win".toList) = slugify "Man Utd win".toList :=
  ⟨(C5_thm "Man Utd win".toList).2.2.1 'm' (by decide),
   (C5_thm "Man Utd win".toList).2.2.2.1 "Man Utd win".toList rfl,
   (C5_thm "Man Utd win".toList).2.2.2.2 (by decide)⟩

/-- C6: an item whose description is already at least 500 characters long is
returned unchanged by enrichment and the page fetch is never consulted.  The
length test is applied to the whitespace-stripped description, and both
fetchers only produce strip-fixed descriptions, so for every pipeline item the
description is kept verbatim. -/
theorem C6_thm :
    (∀ (f g : Str → Except Unit Page) (url desc : Str),
      stripWs desc = desc → 500 ≤ desc.length →
        enrich_summary f url desc = desc ∧
          enrich_summary f url desc = enrich_summary g url desc) ∧
    (∀ (cfg : Config) (pd : Str → Option Int) (now cutoff : Int)
        (e : Entry) (it : Item),
      entryItem cfg pd now cutoff e = some it → stripWs it.desc = it.desc) ∧
    (∀ (cfg : Config) (pd : Str → Option Int) (now : Int) (row : Row) (it : Item),
      rowItem cfg pd now row = some it → stripWs it.desc = it.desc) := by
  refine ⟨?_, ?_, ?_⟩
  · intro f g url desc hstrip hlen
    have hcond : 500 ≤ (stripWs desc).length := by
      rw [hstrip]
      exact hlen
    exact ⟨(enrich_long f url desc hcond).trans hstrip,
      (enrich_long f url desc hcond).trans (enrich_long g url desc hcond).symm⟩
  · intro cfg pd now cutoff e it h
    exact (entryItem_props h).2.2.1
  · intro cfg pd now row it h
    exact (rowItem_props h).2.1

set_option maxRecDepth 10000 in
/-- C6 witness: a 500-character description is returned as-is whatever the
fetch does, and concrete fetcher outputs have strip-fixed descriptions. -/
theorem C6_w :
    (enrich_summary fetchErrC6 [] descC6 = descC6 ∧
      enrich_summary fetchErrC6 [] descC6 = enrich_summary fetchOkC6 [] descC6) ∧
      stripWs itemC6.desc = itemC6.desc :=
  ⟨C6_thm.1 fetchErrC6 fetchOkC6 [] descC6 (by decide) (by decide),
   C6_thm.2.1 cfgC6 pdC6 0 (-1209600) entryC6 itemC6 (by decide)⟩

/-- C7: when the page fetch (or any step of the guarded enrichment body)
raises, `enrich_summary` returns the stripped original description, and since
both fetchers produce strip-fixed descriptions, every pipeline item's
description is preserved verbatim; the failure is absorbed, never propagated. -/
theorem C7_thm :
    (∀ (fetch : Str → Except Unit Page) (url desc : Str),
      fetch url = Except.error () → enrich_summary fetch url desc = stripWs desc) ∧
    (∀ (cfg : Config) (pd : Str → Option Int) (now cutoff : Int)
        (e : Entry) (it : Item) (fetch : Str → Except Unit Page),
      entryItem cfg pd now cutoff e = some it →
        fetch it.link = Except.error () →
          enrich_summary fetch it.link it.desc = it.desc) ∧
    (∀ (cfg : Config) (pd : Str → Option Int) (now : Int)
        (row : Row) (it : Item) (fetch : Str → Except Unit Page),
      rowItem cfg pd now row = some it →
        fetch it.link = Except.error () →
          enrich_summary fetch it.link it.desc = it.desc) := by
  refine ⟨fun fetch url desc h => enrich_error fetch url desc h, ?_, ?_⟩
  · intro cfg pd now cutoff e it fetch he hf
    rw [enrich_error fetch it.link it.desc hf]
    exact (entryItem_props he).2.2.1
  · intro cfg pd now row it fetch hr hf
    rw [enrich_error fetch it.link it.desc hf]
    exact (rowItem_props hr).2.1

/-- C7 witness: with an always-raising fetch, a padded description comes back
stripped, and the descriptions of concrete feed and spreadsheet items come
back exactly as they were. -/
theorem C7_w :
    enrich_summary fetchErrC7 [] " hi ".toList = stripWs " hi ".toList ∧
      enrich_summary fetchErrC7 itemC7r.link itemC7r.desc = itemC7r.desc ∧
      enrich_summary fetchErrC7 itemC7.link itemC7.desc = itemC7.desc :=
  ⟨C7_thm.1 fetchErrC7 [] " hi ".toList rfl,
   C7_thm.2.1 cfgC7 pdC7 0 (-1209600) entryC7 itemC7r fetchErrC7 (by decide) rfl,
   C7_thm.2.2 cfgC7s pdC7 0 rowC7 itemC7 fetchErrC7 (by decide) rfl⟩

/-- C8: the link emitted for an item follows the documented precedence:
the external article-host URL (`article_page_base` plus the slug fragment)
when configured, else the locally hosted summary page
(`site_base/posts/slug.html`) when configured, else the raw source link;
and this is exactly the content of the item's `<link>` line. -/
theorem C8_thm (cfg : Config) (it : Item) (fmt : Int → Str) :
    linkForRss (setSummaryUrl cfg it) =
      (if cfg.articlePageBase ≠ [] then
        cfg.articlePageBase ++ "#slug=".toList ++ computeSlug it
      else if cfg.siteBase ≠ [] then
        cfg.siteBase ++ "/posts/".toList ++ computeSlug it ++ ".html".toList
      else it.link) ∧
    (itemLines fmt (setSummaryUrl cfg it))[2]? =
      some ("      <link>".toList
        ++ xmlEscape (linkForRss (setSummaryUrl cfg it)) ++ "</link>".toList) := by
  constructor
  · show (if summaryUrlOf cfg it = [] then it.link else summaryUrlOf cfg it) = _
    unfold summaryUrlOf
    by_cases h1 : cfg.articlePageBase ≠ []
    · rw [if_pos h1]
      rw [if_neg]
      intro hc
      simp only [List.append_eq_nil] at hc
      exact h1 hc.1.1
    · rw [if_neg h1]
      by_cases h2 : cfg.siteBase ≠ []
      · rw [if_pos h2]
        rw [if_neg]
        intro hc
        simp only [List.append_eq_nil] at hc
        exact h2 hc.1.1.1
      · rw [if_neg h2]
        exact ite_self it.link
  · rfl

/-- C9 counterexample: a feed entry with an empty id and an empty link (and an
empty keyword filter) is retained, and its constructed guid is empty. -/
theorem C9_cex :
    fetch_rss cfgC9 pdC9 0 [[entryC9]] = [itemC9] ∧ itemC9.guid = [] := by decide

/-- C9 (amended): the guid falls back to the link in both fetchers; every
spreadsheet item has a non-empty guid (rows without a url are dropped), and a
feed item's guid can be empty only when the entry's link is also empty. -/
theorem C9_thm :
    (∀ (cfg : Config) (pd : Str → Option Int) (now : Int) (rows : List Row),
      ∀ it ∈ fetch_google_sheet cfg pd now rows, it.guid ≠ []) ∧
    (∀ (cfg : Config) (pd : Str → Option Int) (now : Int)
        (feeds : List (List Entry)),
      ∀ it ∈ fetch_rss cfg pd now feeds, it.guid = [] → it.link = []) ∧
    (∀ e : Entry, e.id = [] → entryGuid e = stripWs e.link) ∧
    (∀ row : Row, stripWs row.guid = [] → rowGuid row = stripWs row.url) := by
  refine ⟨?_, ?_, fun e he => entryGuid_of_empty_id he,
    fun row hr => rowGuid_of_empty hr⟩
  · intro cfg pd now rows it hit
    obtain ⟨row, hr⟩ := mem_fetch_google_sheet hit
    exact (rowItem_props hr).1
  · intro cfg pd now feeds it hit
    obtain ⟨e, he⟩ := mem_fetch_rss hit
    exact (entryItem_props he).2.1

/-- C9 witness: the concrete spreadsheet item has a non-empty guid (fallen
back to its link), and the empty-entry feed item's empty guid comes with an
empty link; both fallbacks are exercised on concrete records. -/
theorem C9_w :
    itemC9s.guid ≠ [] ∧
      itemC9.link = [] ∧
      entryGuid entryC9 = stripWs entryC9.link ∧
      rowGuid rowC9 = stripWs rowC9.url :=
  ⟨C9_thm.1 cfgC9s pdC9 0 [rowC9] itemC9s (by decide),
   C9_thm.2.1 cfgC9 pdC9 0 [[entryC9]] itemC9 (by decide) rfl,
   C9_thm.2.2.1 entryC9 rfl,
   C9_thm.2.2.2 rowC9 rfl⟩

/-- C10: in the RSS document, an item's `<guid>` element carries exactly the
same (escaped) URL as its `<link>` element, is marked `isPermaLink="true"`,
and the emitted lines are independent of the item's internal dedupe guid. -/
theorem C10_thm (fmt : Int → Str) (it : Item) :
    (itemLines fmt it)[2]? =
      some ("      <link>".toList ++ xmlEscape (linkForRss it)
        ++ "</link>".toList) ∧
    (itemLines fmt it)[3]? =
      some ("      <guid isPermaLink=\"true\">".toList
        ++ xmlEscape (linkForRss it) ++ "</guid>".toList) ∧
    ∀ g : Str, itemLines fmt { it with guid := g } = itemLines fmt it :=
  ⟨rfl, rfl, fun _ => rfl⟩

end BuildRss
